import Mathlib

/-!
Verification of the RPC wire-layer utilities declared in
`torch/csrc/distributed/rpc/utils.h`.

The header contains inline bodies only for `LazyStreamContext`
(`getStream`, `waitForCurrentStreams`, `getReservedStreams`, `devices`);
those are embedded directly from the source.  The remaining functions
(`wireSerialize`, `wireDeserialize`, `cloneSparseTensors`,
`writeWrappedPayload`, `readWrappedPayload`, `deserializeRequest`,
`deserializeResponse`) are declared but their bodies live outside this
excerpt; they are modelled from the specification, as marked in each
doc comment.

Bytes are modelled as natural numbers; buffers as `List Nat`.
-/

namespace RpcUtils

/-- Fixed-width (8-byte, big-endian) length field used by the wire framing
and by the nested-payload suffix.  Modelled from the spec: "a fixed-width
trailing length field", "8-byte trailing length of the wrapped segment". -/
def encodeLen64 (n : Nat) : List Nat :=
  [n / 2 ^ 56 % 256, n / 2 ^ 48 % 256, n / 2 ^ 40 % 256, n / 2 ^ 32 % 256,
   n / 2 ^ 24 % 256, n / 2 ^ 16 % 256, n / 2 ^ 8 % 256, n % 256]

/-- Decode an exactly-8-byte big-endian length field. -/
def decodeLen64 (bs : List Nat) : Option Nat :=
  match bs with
  | [b0, b1, b2, b3, b4, b5, b6, b7] =>
      some (b0 * 2 ^ 56 + b1 * 2 ^ 48 + b2 * 2 ^ 40 + b3 * 2 ^ 32 +
            b4 * 2 ^ 24 + b5 * 2 ^ 16 + b6 * 2 ^ 8 + b7)
  | _ => none

theorem encodeLen64_length (n : Nat) : (encodeLen64 n).length = 8 := rfl

theorem decodeLen64_encodeLen64 (n : Nat) (h : n < 2 ^ 64) :
    decodeLen64 (encodeLen64 n) = some n := by
  simp only [encodeLen64, decodeLen64]
  congr 1
  omega

/-- Errors raised by the wire decoding paths ("FormatError" in the spec). -/
inductive FormatError where
  | truncatedHeader : FormatError
  | headerOverrun : FormatError
  | badMetadata : FormatError
  | storageOverrun : FormatError
  | trailingLengthOverrun : FormatError
  deriving DecidableEq, Repr

/-- Modelled from the spec: `writeWrappedPayload` appends the wrapped
payload's bytes to the original payload's bytes, then appends a
fixed-width trailing length field equal to the wrapped payload's byte
length. -/
def writeWrappedPayload (originalPayload additionalPayload : List Nat) : List Nat :=
  originalPayload ++ additionalPayload ++ encodeLen64 additionalPayload.length

/-- Modelled from the spec: `readWrappedPayload` reads the trailing
fixed-width length field of the combined buffer, uses it to locate and
extract the wrapped segment, and restores the payload to just the leading
segment.  Fails with a FormatError if the trailing length exceeds the
buffer's remaining size.  The body of the original function is not in the
excerpt; the value-decoding of the wrapped segment is the external
pickler's concern, so the model returns the wrapped segment's raw bytes. -/
def readWrappedPayload (payload : List Nat) :
    Except FormatError (List Nat × List Nat) :=
  if payload.length < 8 then
    .error .truncatedHeader
  else
    match decodeLen64 (payload.drop (payload.length - 8)) with
    | none => .error .badMetadata
    | some len =>
        let rest := payload.take (payload.length - 8)
        if len > rest.length then
          .error .trailingLengthOverrun
        else
          .ok (rest.take (rest.length - len), rest.drop (rest.length - len))

theorem drop_writeWrapped (A B : List Nat) :
    (writeWrappedPayload A B).drop (A.length + B.length) =
      encodeLen64 B.length := by
  simp [writeWrappedPayload, List.drop_append_eq_append_drop]

lemma writeWrapped_length (A B : List Nat) :
    (writeWrappedPayload A B).length = A.length + B.length + 8 := by
  simp [writeWrappedPayload, encodeLen64]
  omega

lemma readWrapped_writeWrapped (A B : List Nat) (hB : B.length < 2 ^ 64) :
    readWrappedPayload (writeWrappedPayload A B) = .ok (A, B) := by
  have hlen := writeWrapped_length A B
  have hdrop : (writeWrappedPayload A B).drop
      ((writeWrappedPayload A B).length - 8) = encodeLen64 B.length := by
    rw [hlen]
    have : A.length + B.length + 8 - 8 = A.length + B.length := by omega
    rw [this, drop_writeWrapped]
  have htake : (writeWrappedPayload A B).take
      ((writeWrappedPayload A B).length - 8) = A ++ B := by
    rw [hlen]
    have : A.length + B.length + 8 - 8 = A.length + B.length := by omega
    rw [this]
    simp [writeWrappedPayload, List.take_append_eq_append_take]
  rw [readWrappedPayload]
  rw [if_neg (by omega)]
  rw [hdrop, decodeLen64_encodeLen64 _ hB, htake]
  simp only []
  rw [if_neg (by simp)]
  simp

/-!  Tensor model.

A tensor reference is a logical array value (shape, element type code,
element byte size) plus the identity of its backing storage buffer and a
byte offset into it.  Multiple tensors may share one storage (views). -/

structure Tensor where
  shape : List Nat
  dtype : Nat
  elemSize : Nat
  storage : List Nat
  offset : Nat
  deriving DecidableEq, Repr

namespace Tensor

/-- Number of elements. -/
def numel (t : Tensor) : Nat := t.shape.prod

/-- Bytes of reachable payload: `element_size * numel`. -/
def nbytes (t : Tensor) : Nat := t.numel * t.elemSize

/-- The reachable bytes of the tensor inside its backing storage. -/
def data (t : Tensor) : List Nat := (t.storage.drop t.offset).take t.nbytes

/-- The tensor's reachable slice lies inside its storage. -/
def wf (t : Tensor) : Prop := t.offset + t.nbytes ≤ t.storage.length

instance : DecidablePred wf := fun t => by unfold wf; infer_instance

/-- The value-equal tensor backed by freshly allocated, tightly packed
storage holding only the reachable data. -/
def densified (t : Tensor) : Tensor :=
  { shape := t.shape, dtype := t.dtype, elemSize := t.elemSize,
    storage := t.data, offset := 0 }

theorem data_length_le (t : Tensor) : t.data.length ≤ t.nbytes := by
  simp [data]

theorem data_length_of_wf (t : Tensor) (h : t.wf) : t.data.length = t.nbytes := by
  simp only [data, List.length_take, List.length_drop]
  unfold wf at h
  omega

@[simp] theorem densified_data (t : Tensor) : t.densified.data = t.data :=
  List.take_of_length_le t.data_length_le

@[simp] theorem densified_densified (t : Tensor) :
    t.densified.densified = t.densified := by
  rw [show t.densified.densified =
      { shape := t.densified.shape, dtype := t.densified.dtype,
        elemSize := t.densified.elemSize, storage := t.densified.data,
        offset := 0 } from rfl, densified_data]
  rfl

end Tensor

/-- The fixed minimum absolute-savings hurdle of `cloneSparseTensors`.
Modelled from the spec: "a fixed minimum threshold (a small constant, to
avoid copy overhead dominating for tiny tensors)"; the spec fixes no
numeric value, so one small constant is chosen here. -/
def minSavingsThreshold : Nat := 64

/-- Cloning a tensor is worthwhile when transmitting the densified copy
saves at least half of the bytes that would otherwise be transmitted
(the whole storage) AND the absolute savings exceed the minimum hurdle. -/
def worthRecopying (t : Tensor) : Prop :=
  2 * t.nbytes ≤ t.storage.length ∧
    minSavingsThreshold < t.storage.length - t.nbytes

instance : DecidablePred worthRecopying := fun t => by
  unfold worthRecopying; infer_instance

/-- Modelled from the spec: `cloneSparseTensors` clones tensors if that
would save at least half the data, and over a minimum hurdle; every other
tensor is passed through unmodified (no input tensor is mutated — the
function is a pure map over the list). -/
def cloneSparseTensors (tensors : List Tensor) : List Tensor :=
  tensors.map fun t => if worthRecopying t then t.densified else t

theorem cloneSparseTensors_length (ts : List Tensor) :
    (cloneSparseTensors ts).length = ts.length := by
  simp [cloneSparseTensors]

theorem cloneSparseTensors_get (ts : List Tensor) (i : Nat)
    (h : i < ts.length) :
    (cloneSparseTensors ts).get ⟨i, by rwa [cloneSparseTensors_length]⟩ =
      if worthRecopying (ts.get ⟨i, h⟩) then (ts.get ⟨i, h⟩).densified
      else ts.get ⟨i, h⟩ := by
  simp [cloneSparseTensors]

/-!  Wire codec.

Modelled from the spec's bit-exact framing:
`[payload_len: fixed-width][meta_len: fixed-width][payload bytes]
 [serialized metadata table][tensor storage bytes concatenated in table
 order]`, with a self-describing metadata table recording, per tensor,
its shape, element type, and the byte length of its storage slice. -/

/-- One row of the wire metadata table. -/
structure TensorMeta where
  shape : List Nat
  dtype : Nat
  elemSize : Nat
  nbytes : Nat
  deriving DecidableEq, Repr

/-- The metadata row describing a tensor: shape, element type, and byte
length of its storage slice. -/
def Tensor.metaOf (t : Tensor) : TensorMeta :=
  ⟨t.shape, t.dtype, t.elemSize, t.data.length⟩

/-- Serialize one metadata row: rank, the dimensions, element type code,
element byte size, and storage-slice byte length, all as fixed-width
fields. -/
def encodeMetaEntry (m : TensorMeta) : List Nat :=
  encodeLen64 m.shape.length ++ (m.shape.map encodeLen64).flatten ++
    encodeLen64 m.dtype ++ encodeLen64 m.elemSize ++ encodeLen64 m.nbytes

/-- Serialize the metadata table: row count, then the rows. -/
def encodeMeta (ms : List TensorMeta) : List Nat :=
  encodeLen64 ms.length ++ (ms.map encodeMetaEntry).flatten

/-- Consume one fixed-width length field from the front of a buffer. -/
def readLen64 : List Nat → Option (Nat × List Nat)
  | b0 :: b1 :: b2 :: b3 :: b4 :: b5 :: b6 :: b7 :: rest =>
      some (b0 * 2 ^ 56 + b1 * 2 ^ 48 + b2 * 2 ^ 40 + b3 * 2 ^ 32 +
            b4 * 2 ^ 24 + b5 * 2 ^ 16 + b6 * 2 ^ 8 + b7, rest)
  | _ => none

/-- Consume `n` consecutive fixed-width length fields. -/
def readLen64s : Nat → List Nat → Option (List Nat × List Nat)
  | 0, bs => some ([], bs)
  | n + 1, bs => do
      let (v, bs₁) ← readLen64 bs
      let (vs, bs₂) ← readLen64s n bs₁
      pure (v :: vs, bs₂)

/-- Parse one metadata row. -/
def readMetaEntry (bs : List Nat) : Option (TensorMeta × List Nat) := do
  let (rank, bs₁) ← readLen64 bs
  let (shape, bs₂) ← readLen64s rank bs₁
  let (dtype, bs₃) ← readLen64 bs₂
  let (elemSize, bs₄) ← readLen64 bs₃
  let (nbytes, bs₅) ← readLen64 bs₄
  pure (⟨shape, dtype, elemSize, nbytes⟩, bs₅)

/-- Parse `n` metadata rows. -/
def readMetaEntries : Nat → List Nat → Option (List TensorMeta × List Nat)
  | 0, bs => some ([], bs)
  | n + 1, bs => do
      let (m, bs₁) ← readMetaEntry bs
      let (ms, bs₂) ← readMetaEntries n bs₁
      pure (m :: ms, bs₂)

/-- Parse the whole metadata section; it must be consumed exactly. -/
def decodeMeta (bs : List Nat) : Option (List TensorMeta) := do
  let (n, bs₁) ← readLen64 bs
  let (ms, bs₂) ← readMetaEntries n bs₁
  match bs₂ with
  | [] => some ms
  | _ :: _ => none

/-- Total storage bytes the metadata table references. -/
def metasTotalBytes (ms : List TensorMeta) : Nat :=
  (ms.map TensorMeta.nbytes).sum

/-- Modelled from the spec: `wireSerialize` concatenates the two
fixed-width section lengths, the byte payload verbatim, the serialized
metadata table, then every tensor's raw storage bytes back-to-back in
table order.  The input tensor list has already passed through
`cloneSparseTensors` at the caller. -/
def wireSerialize (payload : List Nat) (tensors : List Tensor) : List Nat :=
  let metaBytes := encodeMeta (tensors.map Tensor.metaOf)
  encodeLen64 payload.length ++ encodeLen64 metaBytes.length ++
    payload ++ metaBytes ++ (tensors.map Tensor.data).flatten

/-- Reconstruct a tensor from its metadata row and its storage bytes. -/
def mkTensorFromMeta (m : TensorMeta) (bytes : List Nat) : Tensor :=
  { shape := m.shape, dtype := m.dtype, elemSize := m.elemSize,
    storage := bytes, offset := 0 }

/-- Cut the concatenated storage region into per-tensor slices, in table
order, each of the byte length its metadata row declares. -/
def splitStorage : List TensorMeta → List Nat → List Tensor
  | [], _ => []
  | m :: ms, bs =>
      mkTensorFromMeta m (bs.take m.nbytes) :: splitStorage ms (bs.drop m.nbytes)

/-- Modelled from the spec: `wireDeserialize` reads the two fixed-width
section lengths, fails with a FormatError if they are inconsistent with
the buffer's actual length, parses the metadata table, fails with a
FormatError if the table references more storage bytes than remain, and
otherwise reconstructs the payload and the tensor list. -/
def wireDeserialize (buf : List Nat) :
    Except FormatError (List Nat × List Tensor) :=
  match readLen64 buf with
  | none => .error .truncatedHeader
  | some (payloadLen, bs₁) =>
    match readLen64 bs₁ with
    | none => .error .truncatedHeader
    | some (metaLen, bs₂) =>
      if payloadLen + metaLen > bs₂.length then .error .headerOverrun
      else
        match decodeMeta ((bs₂.drop payloadLen).take metaLen) with
        | none => .error .badMetadata
        | some metas =>
            let storage := bs₂.drop (payloadLen + metaLen)
            if metasTotalBytes metas > storage.length then
              .error .storageOverrun
            else
              .ok (bs₂.take payloadLen, splitStorage metas storage)

/-- All the numeric fields of a metadata row fit the fixed-width fields. -/
def TensorMeta.encodable (m : TensorMeta) : Prop :=
  m.shape.length < 2 ^ 64 ∧ (∀ d ∈ m.shape, d < 2 ^ 64) ∧
    m.dtype < 2 ^ 64 ∧ m.elemSize < 2 ^ 64 ∧ m.nbytes < 2 ^ 64

instance : DecidablePred TensorMeta.encodable := fun m => by
  unfold TensorMeta.encodable; infer_instance

/-- A tensor whose metadata row fits the wire format. -/
def Tensor.encodable (t : Tensor) : Prop := t.metaOf.encodable

instance : DecidablePred Tensor.encodable := fun t => by
  unfold Tensor.encodable; infer_instance

lemma readLen64_encode (n : Nat) (hn : n < 2 ^ 64) (rest : List Nat) :
    readLen64 (encodeLen64 n ++ rest) = some (n, rest) := by
  simp only [encodeLen64, List.cons_append, List.nil_append, readLen64]
  congr 2
  omega

lemma readLen64s_encode (vs : List Nat) (hvs : ∀ v ∈ vs, v < 2 ^ 64)
    (rest : List Nat) :
    readLen64s vs.length ((vs.map encodeLen64).flatten ++ rest) =
      some (vs, rest) := by
  induction vs with
  | nil => simp [readLen64s]
  | cons v vs ih =>
      have hv : v < 2 ^ 64 := hvs v (List.mem_cons_self v vs)
      have hvs' : ∀ w ∈ vs, w < 2 ^ 64 := fun w hw =>
        hvs w (List.mem_cons_of_mem v hw)
      simp only [List.map_cons, List.flatten_cons, List.length_cons,
        List.append_assoc, readLen64s, readLen64_encode v hv, ih hvs',
        Option.bind_eq_bind, Option.some_bind]
      rfl

lemma readMetaEntry_encode (m : TensorMeta) (hm : m.encodable)
    (rest : List Nat) :
    readMetaEntry (encodeMetaEntry m ++ rest) = some (m, rest) := by
  obtain ⟨h₁, h₂, h₃, h₄, h₅⟩ := hm
  simp only [encodeMetaEntry, List.append_assoc, readMetaEntry,
    readLen64_encode m.shape.length h₁, readLen64s_encode m.shape h₂,
    readLen64_encode m.dtype h₃, readLen64_encode m.elemSize h₄,
    readLen64_encode m.nbytes h₅, Option.bind_eq_bind, Option.some_bind]
  rfl

lemma readMetaEntries_encode (ms : List TensorMeta)
    (hms : ∀ m ∈ ms, m.encodable) (rest : List Nat) :
    readMetaEntries ms.length ((ms.map encodeMetaEntry).flatten ++ rest) =
      some (ms, rest) := by
  induction ms with
  | nil => simp [readMetaEntries]
  | cons m ms ih =>
      have hm : m.encodable := hms m (List.mem_cons_self m ms)
      have hms' : ∀ x ∈ ms, x.encodable := fun x hx =>
        hms x (List.mem_cons_of_mem m hx)
      simp only [List.map_cons, List.flatten_cons, List.length_cons,
        List.append_assoc, readMetaEntries, readMetaEntry_encode m hm,
        ih hms', Option.bind_eq_bind, Option.some_bind]
      rfl

lemma decodeMeta_encodeMeta (ms : List TensorMeta)
    (hn : ms.length < 2 ^ 64) (hms : ∀ m ∈ ms, m.encodable) :
    decodeMeta (encodeMeta ms) = some ms := by
  have h₂ : readMetaEntries ms.length ((ms.map encodeMetaEntry).flatten) =
      some (ms, []) := by
    simpa using readMetaEntries_encode ms hms []
  simp only [decodeMeta, encodeMeta, readLen64_encode ms.length hn,
    Option.bind_eq_bind, Option.some_bind, h₂]

@[simp] lemma metaOf_densified (t : Tensor) :
    t.densified.metaOf = t.metaOf := by
  unfold Tensor.metaOf
  rw [Tensor.densified_data]
  rfl

lemma splitStorage_flatten (ts : List Tensor) :
    splitStorage (ts.map Tensor.metaOf) ((ts.map Tensor.data).flatten) =
      ts.map Tensor.densified := by
  induction ts with
  | nil => simp [splitStorage]
  | cons t ts ih =>
      simp only [List.map_cons, List.flatten_cons, splitStorage]
      have hnb : (t.metaOf).nbytes = t.data.length := rfl
      rw [hnb, List.take_left, List.drop_left, ih]
      rfl

lemma metasTotalBytes_map (ts : List Tensor) :
    metasTotalBytes (ts.map Tensor.metaOf) =
      ((ts.map Tensor.data).flatten).length := by
  rw [metasTotalBytes, List.length_flatten, List.map_map, List.map_map]
  rfl

/-- Core round trip of the wire codec over any tensor list: the payload
comes back byte-equal and each tensor comes back value-normalized
(tight storage holding exactly its reachable bytes). -/
lemma wire_roundtrip (payload : List Nat) (ts : List Tensor)
    (hp : payload.length < 2 ^ 64)
    (hmeta : (encodeMeta (ts.map Tensor.metaOf)).length < 2 ^ 64)
    (hcount : ts.length < 2 ^ 64)
    (henc : ∀ t ∈ ts, t.encodable) :
    wireDeserialize (wireSerialize payload ts) =
      .ok (payload, ts.map Tensor.densified) := by
  have hser : wireSerialize payload ts =
      encodeLen64 payload.length ++
        (encodeLen64 (encodeMeta (ts.map Tensor.metaOf)).length ++
          (payload ++ (encodeMeta (ts.map Tensor.metaOf) ++
            (ts.map Tensor.data).flatten))) := by
    simp [wireSerialize, List.append_assoc]
  have hdropP : (payload ++ (encodeMeta (ts.map Tensor.metaOf) ++
      (ts.map Tensor.data).flatten)).drop payload.length =
      encodeMeta (ts.map Tensor.metaOf) ++ (ts.map Tensor.data).flatten :=
    List.drop_left _ _
  have htakeM : (encodeMeta (ts.map Tensor.metaOf) ++
      (ts.map Tensor.data).flatten).take
        (encodeMeta (ts.map Tensor.metaOf)).length =
      encodeMeta (ts.map Tensor.metaOf) := List.take_left _ _
  have hdropPM : (payload ++ (encodeMeta (ts.map Tensor.metaOf) ++
      (ts.map Tensor.data).flatten)).drop
        (payload.length + (encodeMeta (ts.map Tensor.metaOf)).length) =
      (ts.map Tensor.data).flatten := by
    rw [← List.append_assoc]
    have h := List.drop_left (payload ++ encodeMeta (ts.map Tensor.metaOf))
      ((ts.map Tensor.data).flatten)
    rw [List.length_append] at h
    exact h
  have hmetas : decodeMeta (encodeMeta (ts.map Tensor.metaOf)) =
      some (ts.map Tensor.metaOf) := by
    refine decodeMeta_encodeMeta _ (by simpa using hcount) ?_
    intro m hm
    simp only [List.mem_map] at hm
    obtain ⟨t, ht, rfl⟩ := hm
    exact henc t ht
  rw [hser]
  simp only [wireDeserialize, readLen64_encode _ hp, readLen64_encode _ hmeta]
  rw [if_neg (by simp only [List.length_append]; omega)]
  simp only [hdropP, htakeM, hmetas, hdropPM]
  rw [if_neg (by rw [metasTotalBytes_map]; omega)]
  rw [List.take_left, splitStorage_flatten]

lemma clone_map_densified (ts : List Tensor) :
    (cloneSparseTensors ts).map Tensor.densified = ts.map Tensor.densified := by
  simp only [cloneSparseTensors, List.map_map]
  apply List.map_congr_left
  intro t _
  by_cases h : worthRecopying t <;> simp [Function.comp, h]

lemma clone_encodable (ts : List Tensor) (henc : ∀ t ∈ ts, t.encodable) :
    ∀ t ∈ cloneSparseTensors ts, t.encodable := by
  intro t ht
  simp only [cloneSparseTensors, List.mem_map] at ht
  obtain ⟨s, hs, rfl⟩ := ht
  by_cases h : worthRecopying s
  · simp only [if_pos h]
    show s.densified.metaOf.encodable
    rw [metaOf_densified]
    exact henc s hs
  · simp only [if_neg h]
    exact henc s hs

/-- C1: round-trip law of the wire codec.  Decoding the buffer produced by
serializing a payload together with the densified tensor list returns a
payload byte-equal to the input and a tensor list equal in count, order,
shape, element type, and byte content to the densified input list:
`decode(encode(payload, densify(tensors))) == (payload, densify(tensors))`
up to value-normalization of the densified list. -/
theorem wireSerialize_wireDeserialize_roundtrip
    (payload : List Nat) (ts : List Tensor)
    (hp : payload.length < 2 ^ 64)
    (hmeta : (encodeMeta ((cloneSparseTensors ts).map Tensor.metaOf)).length <
      2 ^ 64)
    (hcount : ts.length < 2 ^ 64)
    (henc : ∀ t ∈ ts, t.encodable) :
    wireDeserialize (wireSerialize payload (cloneSparseTensors ts)) =
      .ok (payload, (cloneSparseTensors ts).map Tensor.densified) ∧
    (cloneSparseTensors ts).map Tensor.densified =
      ts.map Tensor.densified := by
  refine ⟨?_, clone_map_densified ts⟩
  exact wire_roundtrip payload (cloneSparseTensors ts) hp hmeta
    (by rw [cloneSparseTensors_length]; exact hcount) (clone_encodable ts henc)

/-- Witness for C1 at a concrete payload and a concrete view tensor
(shape `[2]`, one-byte elements, offset 1 into a 4-byte storage). -/
theorem wireSerialize_wireDeserialize_roundtrip_witness :
    (∀ t ∈ ([⟨[2], 3, 1, [5, 6, 7, 8], 1⟩] : List Tensor), t.encodable) ∧
    (wireDeserialize (wireSerialize [0, 1, 2]
        (cloneSparseTensors [⟨[2], 3, 1, [5, 6, 7, 8], 1⟩])) =
      .ok ([0, 1, 2],
        (cloneSparseTensors
          [⟨[2], 3, 1, [5, 6, 7, 8], 1⟩]).map Tensor.densified) ∧
    (cloneSparseTensors [⟨[2], 3, 1, [5, 6, 7, 8], 1⟩]).map Tensor.densified =
      ([⟨[2], 3, 1, [5, 6, 7, 8], 1⟩] : List Tensor).map Tensor.densified) :=
  ⟨by decide,
   wireSerialize_wireDeserialize_roundtrip [0, 1, 2] _ (by decide) (by decide)
     (by decide) (by decide)⟩

lemma readLen64_some_length {bs : List Nat} {v : Nat} {rest : List Nat}
    (h : readLen64 bs = some (v, rest)) : bs.length = rest.length + 8 := by
  unfold readLen64 at h
  split at h
  · rename_i b0 b1 b2 b3 b4 b5 b6 b7 r
    simp only [Option.some.injEq, Prod.mk.injEq] at h
    obtain ⟨-, rfl⟩ := h
    simp
  · exact Option.noConfusion h

lemma readLen64_eq_none {bs : List Nat} (h : bs.length < 8) :
    readLen64 bs = none := by
  cases hr : readLen64 bs with
  | none => rfl
  | some vr =>
      obtain ⟨v, rest⟩ := vr
      have := readLen64_some_length hr
      omega

lemma take_append_ge (l₁ l₂ : List Nat) (n : Nat) (h : l₁.length ≤ n) :
    (l₁ ++ l₂).take n = l₁ ++ l₂.take (n - l₁.length) := by
  rw [List.take_append_eq_append_take, List.take_of_length_le h]

lemma drop_append_ge (l₁ l₂ : List Nat) (n : Nat) (h : l₁.length ≤ n) :
    (l₁ ++ l₂).drop n = l₂.drop (n - l₁.length) := by
  rw [List.drop_append_eq_append_drop, List.drop_eq_nil_of_le h,
    List.nil_append]

/-- Truncating the wire buffer anywhere before its end makes decoding fail
with a FormatError. -/
lemma wire_truncation (payload : List Nat) (ts : List Tensor)
    (hp : payload.length < 2 ^ 64)
    (hmeta : (encodeMeta (ts.map Tensor.metaOf)).length < 2 ^ 64)
    (hcount : ts.length < 2 ^ 64)
    (henc : ∀ t ∈ ts, t.encodable)
    (n : Nat) (hn : n < (wireSerialize payload ts).length) :
    ∃ e, wireDeserialize ((wireSerialize payload ts).take n) = .error e := by
  have hser : wireSerialize payload ts =
      encodeLen64 payload.length ++
        (encodeLen64 (encodeMeta (ts.map Tensor.metaOf)).length ++
          (payload ++ (encodeMeta (ts.map Tensor.metaOf) ++
            (ts.map Tensor.data).flatten))) := by
    simp [wireSerialize, List.append_assoc]
  have hLen : (wireSerialize payload ts).length =
      16 + (payload ++ (encodeMeta (ts.map Tensor.metaOf) ++
        (ts.map Tensor.data).flatten)).length := by
    rw [hser]
    simp only [List.length_append, encodeLen64_length]
    omega
  rw [hLen] at hn
  rw [hser]
  by_cases h8 : n < 8
  · refine ⟨.truncatedHeader, ?_⟩
    have hshort : ((encodeLen64 payload.length ++
        (encodeLen64 (encodeMeta (ts.map Tensor.metaOf)).length ++
          (payload ++ (encodeMeta (ts.map Tensor.metaOf) ++
            (ts.map Tensor.data).flatten)))).take n).length < 8 := by
      simp only [List.length_take, List.length_append, encodeLen64_length]
      omega
    simp only [wireDeserialize, readLen64_eq_none hshort]
  · by_cases h16 : n < 16
    · refine ⟨.truncatedHeader, ?_⟩
      have hform : (encodeLen64 payload.length ++
          (encodeLen64 (encodeMeta (ts.map Tensor.metaOf)).length ++
            (payload ++ (encodeMeta (ts.map Tensor.metaOf) ++
              (ts.map Tensor.data).flatten)))).take n =
          encodeLen64 payload.length ++
            ((encodeLen64 (encodeMeta (ts.map Tensor.metaOf)).length ++
              (payload ++ (encodeMeta (ts.map Tensor.metaOf) ++
                (ts.map Tensor.data).flatten))).take (n - 8)) := by
        rw [take_append_ge _ _ n (by rw [encodeLen64_length]; omega),
          encodeLen64_length]
      have hshort : ((encodeLen64 (encodeMeta (ts.map Tensor.metaOf)).length ++
          (payload ++ (encodeMeta (ts.map Tensor.metaOf) ++
            (ts.map Tensor.data).flatten))).take (n - 8)).length < 8 := by
        simp only [List.length_take, List.length_append, encodeLen64_length]
        omega
      rw [hform]
      simp only [wireDeserialize, readLen64_encode _ hp,
        readLen64_eq_none hshort]
    · have hform : (encodeLen64 payload.length ++
          (encodeLen64 (encodeMeta (ts.map Tensor.metaOf)).length ++
            (payload ++ (encodeMeta (ts.map Tensor.metaOf) ++
              (ts.map Tensor.data).flatten)))).take n =
          encodeLen64 payload.length ++
            (encodeLen64 (encodeMeta (ts.map Tensor.metaOf)).length ++
              ((payload ++ (encodeMeta (ts.map Tensor.metaOf) ++
                (ts.map Tensor.data).flatten)).take (n - 16))) := by
        rw [take_append_ge _ _ n (by rw [encodeLen64_length]; omega),
          encodeLen64_length,
          take_append_ge _ _ (n - 8) (by rw [encodeLen64_length]; omega),
          encodeLen64_length]
        congr 3
      have hbs₂ : ((payload ++ (encodeMeta (ts.map Tensor.metaOf) ++
          (ts.map Tensor.data).flatten)).take (n - 16)).length = n - 16 := by
        simp only [List.length_take]
        simp only [List.length_append] at hn ⊢
        omega
      rw [hform]
      by_cases hpm : n - 16 <
          payload.length + (encodeMeta (ts.map Tensor.metaOf)).length
      · refine ⟨.headerOverrun, ?_⟩
        simp only [wireDeserialize, readLen64_encode _ hp,
          readLen64_encode _ hmeta]
        rw [if_pos (by rw [hbs₂]; omega)]
      · refine ⟨.storageOverrun, ?_⟩
        have hsplit : (payload ++ (encodeMeta (ts.map Tensor.metaOf) ++
            (ts.map Tensor.data).flatten)).take (n - 16) =
            payload ++ (encodeMeta (ts.map Tensor.metaOf) ++
              ((ts.map Tensor.data).flatten).take
                (n - 16 - payload.length -
                  (encodeMeta (ts.map Tensor.metaOf)).length)) := by
          rw [take_append_ge _ _ (n - 16) (by omega),
            take_append_ge _ _ _ (by omega)]
        have hdropP : (payload ++ (encodeMeta (ts.map Tensor.metaOf) ++
            ((ts.map Tensor.data).flatten).take
              (n - 16 - payload.length -
                (encodeMeta (ts.map Tensor.metaOf)).length))).drop
              payload.length =
            encodeMeta (ts.map Tensor.metaOf) ++
              ((ts.map Tensor.data).flatten).take
                (n - 16 - payload.length -
                  (encodeMeta (ts.map Tensor.metaOf)).length) :=
          List.drop_left _ _
        have htakeM : (encodeMeta (ts.map Tensor.metaOf) ++
            ((ts.map Tensor.data).flatten).take
              (n - 16 - payload.length -
                (encodeMeta (ts.map Tensor.metaOf)).length)).take
              (encodeMeta (ts.map Tensor.metaOf)).length =
            encodeMeta (ts.map Tensor.metaOf) := List.take_left _ _
        have hdropPM : (payload ++ (encodeMeta (ts.map Tensor.metaOf) ++
            ((ts.map Tensor.data).flatten).take
              (n - 16 - payload.length -
                (encodeMeta (ts.map Tensor.metaOf)).length))).drop
              (payload.length +
                (encodeMeta (ts.map Tensor.metaOf)).length) =
            ((ts.map Tensor.data).flatten).take
              (n - 16 - payload.length -
                (encodeMeta (ts.map Tensor.metaOf)).length) := by
          rw [← List.append_assoc]
          have h := List.drop_left
            (payload ++ encodeMeta (ts.map Tensor.metaOf))
            (((ts.map Tensor.data).flatten).take
              (n - 16 - payload.length -
                (encodeMeta (ts.map Tensor.metaOf)).length))
          rw [List.length_append] at h
          exact h
        have hmetas : decodeMeta (encodeMeta (ts.map Tensor.metaOf)) =
            some (ts.map Tensor.metaOf) := by
          refine decodeMeta_encodeMeta _ (by simpa using hcount) ?_
          intro m hm
          simp only [List.mem_map] at hm
          obtain ⟨t, ht, rfl⟩ := hm
          exact henc t ht
        rw [hsplit]
        simp only [wireDeserialize, readLen64_encode _ hp,
          readLen64_encode _ hmeta, hdropP, htakeM, hmetas, hdropPM]
        rw [if_neg (by simp only [List.length_append, List.length_take]
                       omega)]
        rw [if_pos (by
          rw [metasTotalBytes_map]
          simp only [List.length_take]
          simp only [List.length_append] at hn
          omega)]

/-- C4: `wireDeserialize` fails with a FormatError — never succeeds with
wrong data — on every malformed buffer: (1) any truncation of a valid wire
buffer strictly before its end; (2) a buffer shorter than the fixed-width
header; (3) a buffer whose header length fields claim more bytes than the
buffer holds; (4) a buffer whose metadata table references more storage
bytes than remain.  Out-of-bounds reads cannot occur: the decoder is a
total function over the buffer contents. -/
theorem wireDeserialize_malformed_fails :
    (∀ (payload : List Nat) (ts : List Tensor),
      payload.length < 2 ^ 64 →
      (encodeMeta (ts.map Tensor.metaOf)).length < 2 ^ 64 →
      ts.length < 2 ^ 64 →
      (∀ t ∈ ts, t.encodable) →
      ∀ n < (wireSerialize payload ts).length,
        ∃ e, wireDeserialize ((wireSerialize payload ts).take n) =
          .error e) ∧
    (∀ buf : List Nat, buf.length < 16 →
      ∃ e, wireDeserialize buf = .error e) ∧
    (∀ (buf bs₁ bs₂ : List Nat) (v₁ v₂ : Nat),
      readLen64 buf = some (v₁, bs₁) → readLen64 bs₁ = some (v₂, bs₂) →
      bs₂.length < v₁ + v₂ → ∃ e, wireDeserialize buf = .error e) ∧
    (∀ (buf bs₁ bs₂ : List Nat) (v₁ v₂ : Nat) (metas : List TensorMeta),
      readLen64 buf = some (v₁, bs₁) → readLen64 bs₁ = some (v₂, bs₂) →
      decodeMeta ((bs₂.drop v₁).take v₂) = some metas →
      (bs₂.drop (v₁ + v₂)).length < metasTotalBytes metas →
      ∃ e, wireDeserialize buf = .error e) := by
  refine ⟨fun payload ts hp hmeta hcount henc n hn =>
    wire_truncation payload ts hp hmeta hcount henc n hn, ?_, ?_, ?_⟩
  · intro buf hlen
    cases h1 : readLen64 buf with
    | none => exact ⟨.truncatedHeader, by simp only [wireDeserialize, h1]⟩
    | some p =>
        obtain ⟨v₁, bs₁⟩ := p
        have hb1 := readLen64_some_length h1
        have h2 : readLen64 bs₁ = none := readLen64_eq_none (by omega)
        exact ⟨.truncatedHeader, by simp only [wireDeserialize, h1, h2]⟩
  · intro buf bs₁ bs₂ v₁ v₂ h1 h2 hlt
    refine ⟨.headerOverrun, ?_⟩
    simp only [wireDeserialize, h1, h2]
    rw [if_pos (by omega)]
  · intro buf bs₁ bs₂ v₁ v₂ metas h1 h2 hmetas hlt
    by_cases hpm : v₁ + v₂ > bs₂.length
    · refine ⟨.headerOverrun, ?_⟩
      simp only [wireDeserialize, h1, h2]
      rw [if_pos hpm]
    · refine ⟨.storageOverrun, ?_⟩
      simp only [wireDeserialize, h1, h2, hmetas]
      rw [if_neg hpm, if_pos hlt]

/-- Witness for C4: truncating a concrete serialized buffer at byte 3
makes decoding fail. -/
theorem wireDeserialize_malformed_fails_witness :
    3 < (wireSerialize [0, 1] []).length ∧
    ∃ e, wireDeserialize ((wireSerialize [0, 1] []).take 3) = .error e :=
  ⟨by decide,
   wireDeserialize_malformed_fails.1 [0, 1] [] (by decide) (by decide)
     (by decide) (by decide) 3 (by decide)⟩

/-- C5: `cloneSparseTensors` copies a tensor to tightly packed fresh
storage exactly when its reachable payload occupies at most 50% of its
backing storage's bytes AND the absolute byte savings exceed the fixed
minimum threshold; every tensor failing either condition is passed
through unmodified, with its original storage untouched.  No input tensor
is mutated: the function is a pure map and its output at position `i`
depends only on the input at position `i`. -/
theorem cloneSparseTensors_threshold (ts : List Tensor) (i : Nat)
    (h : i < ts.length) :
    (cloneSparseTensors ts).length = ts.length ∧
    (((ts.get ⟨i, h⟩).nbytes ≤ (ts.get ⟨i, h⟩).storage.length / 2 ∧
        minSavingsThreshold <
          (ts.get ⟨i, h⟩).storage.length - (ts.get ⟨i, h⟩).nbytes) →
      (cloneSparseTensors ts).get ⟨i, by rwa [cloneSparseTensors_length]⟩ =
        (ts.get ⟨i, h⟩).densified ∧
      ((cloneSparseTensors ts).get
          ⟨i, by rwa [cloneSparseTensors_length]⟩).storage =
        (ts.get ⟨i, h⟩).data ∧
      ((cloneSparseTensors ts).get
          ⟨i, by rwa [cloneSparseTensors_length]⟩).offset = 0) ∧
    (¬ ((ts.get ⟨i, h⟩).nbytes ≤ (ts.get ⟨i, h⟩).storage.length / 2 ∧
        minSavingsThreshold <
          (ts.get ⟨i, h⟩).storage.length - (ts.get ⟨i, h⟩).nbytes) →
      (cloneSparseTensors ts).get ⟨i, by rwa [cloneSparseTensors_length]⟩ =
        ts.get ⟨i, h⟩) := by
  have hiff : ((ts.get ⟨i, h⟩).nbytes ≤ (ts.get ⟨i, h⟩).storage.length / 2 ∧
      minSavingsThreshold <
        (ts.get ⟨i, h⟩).storage.length - (ts.get ⟨i, h⟩).nbytes) ↔
      worthRecopying (ts.get ⟨i, h⟩) := by
    unfold worthRecopying
    constructor
    · rintro ⟨h₁, h₂⟩
      refine ⟨?_, h₂⟩
      have := (Nat.le_div_iff_mul_le (by norm_num)).1 h₁
      omega
    · rintro ⟨h₁, h₂⟩
      refine ⟨?_, h₂⟩
      rw [Nat.le_div_iff_mul_le (by norm_num)]
      omega
  refine ⟨cloneSparseTensors_length ts, ?_, ?_⟩
  · intro hc
    have hw := hiff.1 hc
    rw [cloneSparseTensors_get ts i h, if_pos hw]
    exact ⟨rfl, rfl, rfl⟩
  · intro hc
    have hw : ¬ worthRecopying (ts.get ⟨i, h⟩) := fun hw => hc (hiff.2 hw)
    rw [cloneSparseTensors_get ts i h, if_neg hw]

set_option maxRecDepth 8000 in
/-- Witness for C5: a one-byte view into a 200-byte storage is cloned
(savings of 199 bytes exceed the hurdle and are over half the storage). -/
theorem cloneSparseTensors_threshold_witness :
    (0 : Nat) < ([⟨[1], 0, 1, List.replicate 200 0, 0⟩] :
      List Tensor).length ∧
    (cloneSparseTensors [⟨[1], 0, 1, List.replicate 200 0, 0⟩]).get
        ⟨0, by rw [cloneSparseTensors_length]; decide⟩ =
      (⟨[1], 0, 1, List.replicate 200 0, 0⟩ : Tensor).densified :=
  ⟨by decide,
   ((cloneSparseTensors_threshold [⟨[1], 0, 1, List.replicate 200 0, 0⟩] 0
     (by decide)).2.1 (by decide)).1⟩

/-- C6: nesting round trip.  `readWrappedPayload` applied to the buffer
produced by `writeWrappedPayload A B` restores the payload to exactly A
and returns the wrapped segment exactly B; the trailing fixed-width
length field written always equals the byte length of the wrapped
segment appended just before it. -/
theorem writeWrapped_readWrapped_roundtrip (A B : List Nat)
    (hB : B.length < 2 ^ 64) :
    readWrappedPayload (writeWrappedPayload A B) = .ok (A, B) ∧
    (writeWrappedPayload A B).drop (A.length + B.length) =
      encodeLen64 B.length ∧
    decodeLen64 (encodeLen64 B.length) = some B.length :=
  ⟨readWrapped_writeWrapped A B hB, drop_writeWrapped A B,
   decodeLen64_encodeLen64 _ hB⟩

/-- Witness for C6 at concrete byte sequences. -/
theorem writeWrapped_readWrapped_roundtrip_witness :
    readWrappedPayload (writeWrappedPayload [1, 2] [3]) = .ok ([1, 2], [3]) ∧
    (writeWrappedPayload [1, 2] [3]).drop ([1, 2].length + [3].length) =
      encodeLen64 [3].length ∧
    decodeLen64 (encodeLen64 [3].length) = some [3].length :=
  writeWrapped_readWrapped_roundtrip [1, 2] [3] (by decide)

/-!  LazyStreamContext.

Embedded from the source (`utils.h`): `getStream`,
`waitForCurrentStreams`, `getReservedStreams` and `devices` have inline
bodies in the header.  `std::unordered_map<DeviceIndex, Stream>` is
modelled as an association list kept in insertion order;
`c10::optional` as `Option`; `throw std::runtime_error` as
`Except.error` carrying the message. -/

/-- `c10::DeviceType` (numeric enumeration codes). -/
abbrev DeviceType := Nat

/-- `c10::DeviceIndex`. -/
abbrev DeviceIndex := Int

/-- A `c10::Stream` handle: an execution queue on a device. -/
structure Stream where
  device_type : DeviceType
  device_index : DeviceIndex
  id : Nat
  deriving DecidableEq, Repr

/-- `stream_factory_t`:
`std::function<c10::optional<c10::Stream>(c10::DeviceType, c10::DeviceIndex)>`. -/
def StreamFactory := DeviceType → DeviceIndex → Option Stream

/-- The device of a `torch::Tensor` as consulted by
`waitForCurrentStreams` (`tensor.device().type()`,
`tensor.device().index()`); nothing else of the tensor is used there. -/
structure TensorDevice where
  device_type : DeviceType
  device_index : DeviceIndex
  deriving DecidableEq, Repr

/-- One cross-stream synchronization edge issued by
`waitForCurrentStreams`: a fresh `c10::Event` (numbered in creation
order) constructed for the entry's device type, recorded on the ambient
current stream, and blocked on by the reserved stream. -/
structure SyncAction where
  eventId : Nat
  eventDeviceType : DeviceType
  recordedOn : Stream
  blockedStream : Stream
  deriving DecidableEq, Repr

/-- `LazyStreamContext`: per-call map from device index to reserved
stream plus the two injected providers. -/
structure LazyStreamContext where
  streams_ : List (DeviceIndex × Stream)
  streamCreator_ : StreamFactory
  currentStreamProvider_ : StreamFactory

/-- `LazyStreamContext::getStream`: look the index up in `streams_`; on a
miss, call `streamCreator_` and either cache and return the created
stream or throw `std::runtime_error("Only CUDA streams are supported")`;
on a hit, return the cached stream. -/
def getStream (ctx : LazyStreamContext) (device_type : DeviceType)
    (index : DeviceIndex) :
    Except String (Option Stream × LazyStreamContext) :=
  match ctx.streams_.lookup index with
  | none =>
      match ctx.streamCreator_ device_type index with
      | some stream =>
          .ok (some stream,
            { ctx with streams_ := ctx.streams_ ++ [(index, stream)] })
      | none => .error "Only CUDA streams are supported"
  | some s => .ok (some s, ctx)

/-- `LazyStreamContext::getReservedStreams`. -/
def getReservedStreams (ctx : LazyStreamContext) : List Stream :=
  ctx.streams_.map Prod.snd

/-- `LazyStreamContext::devices`. -/
def devices (ctx : LazyStreamContext) : List DeviceIndex :=
  ctx.streams_.map Prod.fst

/-- First loop of `waitForCurrentStreams`: `getStream` for every
tensor's device (results discarded, errors propagate). -/
def reserveAll : LazyStreamContext → List TensorDevice →
    Except String LazyStreamContext
  | ctx, [] => .ok ctx
  | ctx, td :: rest =>
      match getStream ctx td.device_type td.device_index with
      | .ok (_, ctx₁) => reserveAll ctx₁ rest
      | .error e => .error e

/-- Second loop of `waitForCurrentStreams`: for each cached entry, ask
`currentStreamProvider_(entry.second.device_type(), entry.first)`; if a
current stream exists, construct a fresh `c10::Event` for the entry's
device type, record it on the current stream and block the reserved
stream on it; otherwise do nothing for that entry. -/
def syncActions (provider : StreamFactory) :
    List (DeviceIndex × Stream) → Nat → List SyncAction
  | [], _ => []
  | (idx, s) :: rest, n =>
      match provider s.device_type idx with
      | some current_stream =>
          ⟨n, s.device_type, current_stream, s⟩ ::
            syncActions provider rest (n + 1)
      | none => syncActions provider rest n

/-- `LazyStreamContext::waitForCurrentStreams`, returning the updated
context and the list of synchronization edges it issued. -/
def waitForCurrentStreams (ctx : LazyStreamContext)
    (tensors : List TensorDevice) :
    Except String (LazyStreamContext × List SyncAction) :=
  match reserveAll ctx tensors with
  | .ok ctx₁ =>
      .ok (ctx₁, syncActions ctx₁.currentStreamProvider_ ctx₁.streams_ 0)
  | .error e => .error e

lemma lookup_append_right {l : List (DeviceIndex × Stream)}
    {i : DeviceIndex} (hm : l.lookup i = none)
    (e : DeviceIndex × Stream) (hi : e.1 = i) :
    (l ++ [e]).lookup i = some e.2 := by
  induction l with
  | nil => simp [List.lookup, hi.symm]
  | cons a l ih =>
      simp only [List.lookup, List.cons_append] at hm ⊢
      cases hb : (i == a.1) with
      | true => simp [hb] at hm
      | false =>
          simp only [hb] at hm ⊢
          exact ih hm

lemma lookup_append_left {l l' : List (DeviceIndex × Stream)}
    {i : DeviceIndex} {s : Stream} (h : l.lookup i = some s) :
    (l ++ l').lookup i = some s := by
  induction l with
  | nil => simp [List.lookup] at h
  | cons a l ih =>
      simp only [List.lookup, List.cons_append] at h ⊢
      cases hb : (i == a.1) with
      | true => simpa [hb] using h
      | false =>
          simp only [hb] at h ⊢
          exact ih h

/-- Inversion of a successful `getStream`: the returned handle is always
present (never the creator's absence), it is cached under the index, the
two providers are untouched, and the cache either was unchanged or got
exactly the new entry appended. -/
lemma getStream_ok_inv {ctx : LazyStreamContext} {t : DeviceType}
    {i : DeviceIndex} {os : Option Stream} {ctx' : LazyStreamContext}
    (h : getStream ctx t i = .ok (os, ctx')) :
    ∃ s, os = some s ∧ ctx'.streams_.lookup i = some s ∧
      ctx'.streamCreator_ = ctx.streamCreator_ ∧
      ctx'.currentStreamProvider_ = ctx.currentStreamProvider_ ∧
      ((ctx'.streams_ = ctx.streams_ ∧ ctx.streams_.lookup i = some s) ∨
       (ctx'.streams_ = ctx.streams_ ++ [(i, s)] ∧
         ctx.streams_.lookup i = none ∧ ctx.streamCreator_ t i = some s)) := by
  unfold getStream at h
  cases hl : ctx.streams_.lookup i with
  | none =>
      rw [hl] at h
      cases hc : ctx.streamCreator_ t i with
      | none => rw [hc] at h; exact Except.noConfusion h
      | some s =>
          rw [hc] at h
          simp only [Except.ok.injEq, Prod.mk.injEq] at h
          obtain ⟨rfl, rfl⟩ := h
          exact ⟨s, rfl, lookup_append_right hl (i, s) rfl, rfl, rfl,
            Or.inr ⟨rfl, rfl, rfl⟩⟩
  | some s =>
      rw [hl] at h
      simp only [Except.ok.injEq, Prod.mk.injEq] at h
      obtain ⟨rfl, rfl⟩ := h
      exact ⟨s, rfl, hl, rfl, rfl, Or.inl ⟨rfl, rfl⟩⟩

/-- A cache hit returns the cached stream and changes nothing. -/
lemma getStream_hit {ctx : LazyStreamContext} {i : DeviceIndex}
    {s : Stream} (hl : ctx.streams_.lookup i = some s)
    (t : DeviceType) :
    getStream ctx t i = .ok (some s, ctx) := by
  unfold getStream
  rw [hl]

lemma lookup_append_none {l : List (DeviceIndex × Stream)} {j : DeviceIndex}
    (h : l.lookup j = none) (e : DeviceIndex × Stream) (hne : j ≠ e.1) :
    (l ++ [e]).lookup j = none := by
  induction l with
  | nil =>
      obtain ⟨k, v⟩ := e
      simp only [List.nil_append, List.lookup]
      rw [show (j == k) = false from beq_eq_false_iff_ne.mpr hne]
  | cons a l ih =>
      simp only [List.lookup, List.cons_append] at h ⊢
      cases hb : (j == a.1) with
      | true => simp [hb] at h
      | false =>
          simp only [hb] at h ⊢
          exact ih h

/-- C2 (counterexample): with an injected creator that reports "no
stream" for every device — as for a host/CPU-only configuration —
`getStream` does not return the absent value to the caller: it signals
the runtime error unconditionally. -/
theorem getStream_absence_counterexample :
    getStream ⟨[], fun _ _ => none, fun _ _ => none⟩ 0 0 =
      .error "Only CUDA streams are supported" ∧
    getStream ⟨[], fun _ _ => none, fun _ _ => none⟩ 0 0 ≠
      .ok (none, ⟨[], fun _ _ => none, fun _ _ => none⟩) :=
  ⟨rfl, fun h => Except.noConfusion h⟩

/-- C2 (amended): whenever the injected creator returns no stream for an
index that is not yet cached, `getStream` signals the runtime error
"Only CUDA streams are supported" — regardless of the device type; it
never forwards the creator's absence to the caller. -/
theorem getStream_creatorNone_errors (ctx : LazyStreamContext)
    (device_type : DeviceType) (index : DeviceIndex)
    (hmiss : ctx.streams_.lookup index = none)
    (hnone : ctx.streamCreator_ device_type index = none) :
    getStream ctx device_type index =
      .error "Only CUDA streams are supported" := by
  unfold getStream
  rw [hmiss, hnone]

/-- Witness for C2 (amended) at a concrete context whose creator always
reports no stream. -/
theorem getStream_creatorNone_errors_witness :
    getStream ⟨[], fun _ _ => none, fun _ _ => none⟩ 1 2 =
      .error "Only CUDA streams are supported" :=
  getStream_creatorNone_errors ⟨[], fun _ _ => none, fun _ _ => none⟩
    1 2 rfl rfl

/-- C3 (counterexample): with a creator that hands out the same stream
for every index, `getStream` for two different indices returns the
identical handle, not two distinct handles. -/
theorem getStream_distinct_indices_counterexample :
    getStream ⟨[], fun _ _ => some ⟨1, 0, 7⟩, fun _ _ => none⟩ 1 0 =
      .ok (some ⟨1, 0, 7⟩,
        ⟨[((0 : Int), ⟨1, 0, 7⟩)], fun _ _ => some ⟨1, 0, 7⟩,
          fun _ _ => none⟩) ∧
    getStream
        ⟨[((0 : Int), ⟨1, 0, 7⟩)], fun _ _ => some ⟨1, 0, 7⟩,
          fun _ _ => none⟩ 1 1 =
      .ok (some ⟨1, 0, 7⟩,
        ⟨[((0 : Int), ⟨1, 0, 7⟩), ((1 : Int), ⟨1, 0, 7⟩)],
          fun _ _ => some ⟨1, 0, 7⟩, fun _ _ => none⟩) :=
  ⟨rfl, rfl⟩

/-- C3 (amended): `getStream` is idempotent per device index — the first
call for an uncached index creates the stream via the injected creator
and caches it; every subsequent call for that index returns the
identical cached handle without consulting the creator (the result is
the same for every creator function); and calls for two different
indices return exactly the streams the creator produced for each, which
are distinct handles whenever the creator's outputs for the two indices
are distinct. -/
theorem getStream_idempotent_per_index
    (ctx : LazyStreamContext) (tA tB t' : DeviceType) (i j : DeviceIndex)
    (si sj : Stream)
    (hi : ctx.streams_.lookup i = none)
    (hj : ctx.streams_.lookup j = none)
    (hij : j ≠ i)
    (hci : ctx.streamCreator_ tA i = some si)
    (hcj : ctx.streamCreator_ tB j = some sj) :
    ∃ ctxi, getStream ctx tA i = .ok (some si, ctxi) ∧
      ctxi.streams_.lookup i = some si ∧
      (∀ f : StreamFactory,
        getStream { ctxi with streamCreator_ := f } t' i =
          .ok (some si, { ctxi with streamCreator_ := f })) ∧
      ∃ ctxj, getStream ctxi tB j = .ok (some sj, ctxj) ∧
        (si ≠ sj → (some si : Option Stream) ≠ some sj) := by
  refine ⟨{ ctx with streams_ := ctx.streams_ ++ [(i, si)] }, ?_, ?_, ?_, ?_⟩
  · unfold getStream
    rw [hi, hci]
  · exact lookup_append_right hi (i, si) rfl
  · intro f
    exact getStream_hit (lookup_append_right hi (i, si) rfl) t'
  · have hjmiss : (ctx.streams_ ++ [(i, si)]).lookup j = none :=
      lookup_append_none hj (i, si) hij
    refine ⟨⟨(ctx.streams_ ++ [(i, si)]) ++ [(j, sj)],
      ctx.streamCreator_, ctx.currentStreamProvider_⟩, ?_, ?_⟩
    · unfold getStream
      rw [show ({ ctx with streams_ := ctx.streams_ ++ [(i, si)] } :
          LazyStreamContext).streams_.lookup j = none from hjmiss]
      rw [show ({ ctx with streams_ := ctx.streams_ ++ [(i, si)] } :
          LazyStreamContext).streamCreator_ tB j = some sj from hcj]
    · intro hne hsome
      exact hne (Option.some.inj hsome)

/-- Witness for C3 (amended): an index-dependent creator on an empty
context; indices 0 and 1 receive the creator's two distinct streams. -/
theorem getStream_idempotent_per_index_witness :
    ∃ ctxi,
      getStream ⟨[], fun t i => some ⟨t, i, 5⟩, fun _ _ => none⟩ 1 0 =
        .ok (some ⟨1, 0, 5⟩, ctxi) ∧
      ctxi.streams_.lookup 0 = some ⟨1, 0, 5⟩ ∧
      (∀ f : StreamFactory,
        getStream { ctxi with streamCreator_ := f } 1 0 =
          .ok (some ⟨1, 0, 5⟩, { ctxi with streamCreator_ := f })) ∧
      ∃ ctxj, getStream ctxi 1 1 = .ok (some ⟨1, 1, 5⟩, ctxj) ∧
        ((⟨1, 0, 5⟩ : Stream) ≠ ⟨1, 1, 5⟩ →
          (some (⟨1, 0, 5⟩ : Stream) : Option Stream) ≠ some ⟨1, 1, 5⟩) :=
  getStream_idempotent_per_index
    ⟨[], fun t i => some ⟨t, i, 5⟩, fun _ _ => none⟩ 1 1 1 0 1
    ⟨1, 0, 5⟩ ⟨1, 1, 5⟩ rfl rfl (by decide) rfl rfl

/-- C9: the stream cache is keyed by the device index only, ignoring the
device type.  After a successful `getStream(typeA, i)` yielding handle
`s`, `getStream(typeB, i)` for any device type `typeB` — and under any
creator function, showing the creator is not consulted again — returns
the cached `s` and leaves the context unchanged; likewise in any later
context still caching `s` for `i`. -/
theorem getStream_cache_ignores_device_type
    {ctx : LazyStreamContext} {tA : DeviceType} {i : DeviceIndex}
    {os : Option Stream} {ctx' : LazyStreamContext}
    (h : getStream ctx tA i = .ok (os, ctx')) :
    ∃ s, os = some s ∧
      (∀ (tB : DeviceType) (f : StreamFactory),
        getStream { ctx' with streamCreator_ := f } tB i =
          .ok (some s, { ctx' with streamCreator_ := f })) ∧
      (∀ (ctx₂ : LazyStreamContext) (tB : DeviceType),
        ctx₂.streams_.lookup i = some s →
        getStream ctx₂ tB i = .ok (some s, ctx₂)) := by
  obtain ⟨s, rfl, hlook, -, -, -⟩ := getStream_ok_inv h
  refine ⟨s, rfl, ?_, ?_⟩
  · intro tB f
    exact getStream_hit (show ({ ctx' with streamCreator_ := f } :
      LazyStreamContext).streams_.lookup i = some s from hlook) tB
  · intro ctx₂ tB h₂
    exact getStream_hit h₂ tB

/-- Witness for C9: a stream first created under device type 1 is
afterwards returned for the same index under any device type and any
creator, and in any context caching it. -/
theorem getStream_cache_ignores_device_type_witness :
    ∃ s, (some (⟨1, 0, 5⟩ : Stream) : Option Stream) = some s ∧
      (∀ (tB : DeviceType) (f : StreamFactory),
        getStream
            ⟨[((0 : Int), ⟨1, 0, 5⟩)], f, fun _ _ => none⟩ tB 0 =
          .ok (some s,
            ⟨[((0 : Int), ⟨1, 0, 5⟩)], f, fun _ _ => none⟩)) ∧
      (∀ (ctx₂ : LazyStreamContext) (tB : DeviceType),
        ctx₂.streams_.lookup 0 = some s →
        getStream ctx₂ tB 0 = .ok (some s, ctx₂)) :=
  @getStream_cache_ignores_device_type
    ⟨[], fun _ _ => some ⟨1, 0, 5⟩, fun _ _ => none⟩ 1 0
    (some ⟨1, 0, 5⟩)
    ⟨[((0 : Int), ⟨1, 0, 5⟩)], fun _ _ => some ⟨1, 0, 5⟩,
      fun _ _ => none⟩ rfl

/-- Inversion of a successful first loop of `waitForCurrentStreams`:
providers are untouched, every already-cached entry survives, cached
lookups are stable, and every tensor's device ends up reserved. -/
lemma reserveAll_ok_inv {ds : List TensorDevice}
    {ctx ctx' : LazyStreamContext} (h : reserveAll ctx ds = .ok ctx') :
    ctx'.streamCreator_ = ctx.streamCreator_ ∧
    ctx'.currentStreamProvider_ = ctx.currentStreamProvider_ ∧
    (∀ e ∈ ctx.streams_, e ∈ ctx'.streams_) ∧
    (∀ (i : DeviceIndex) (s : Stream), ctx.streams_.lookup i = some s →
      ctx'.streams_.lookup i = some s) ∧
    (∀ td ∈ ds, ∃ s, ctx'.streams_.lookup td.device_index = some s) := by
  induction ds generalizing ctx with
  | nil =>
      unfold reserveAll at h
      simp only [Except.ok.injEq] at h
      subst h
      exact ⟨rfl, rfl, fun e he => he, fun i s hs => hs, by simp⟩
  | cons td rest ih =>
      unfold reserveAll at h
      cases hg : getStream ctx td.device_type td.device_index with
      | error e =>
          simp only [hg] at h
          exact Except.noConfusion h
      | ok p =>
          obtain ⟨os, ctx₁⟩ := p
          simp only [hg] at h
          obtain ⟨hc, hp, hmem, hlk, hres⟩ := ih h
          obtain ⟨s, -, hlook, hc₁, hp₁, hcases⟩ := getStream_ok_inv hg
          refine ⟨hc.trans hc₁, hp.trans hp₁, ?_, ?_, ?_⟩
          · intro e he
            apply hmem
            rcases hcases with ⟨heq, -⟩ | ⟨heq, -, -⟩
            · rwa [heq]
            · rw [heq]; exact List.mem_append_left _ he
          · intro i' s' hs'
            apply hlk
            rcases hcases with ⟨heq, -⟩ | ⟨heq, hnone, -⟩
            · rwa [heq]
            · rw [heq]
              exact lookup_append_left hs'
          · intro td' htd'
            rcases List.mem_cons.1 htd' with rfl | hmem'
            · exact ⟨s, hlk _ _ hlook⟩
            · exact hres td' hmem'

lemma syncActions_sound (p : StreamFactory)
    (l : List (DeviceIndex × Stream)) (n : Nat) :
    ∀ a ∈ syncActions p l n, ∃ e ∈ l,
      p e.2.device_type e.1 = some a.recordedOn ∧
      a.blockedStream = e.2 ∧ a.eventDeviceType = e.2.device_type := by
  induction l generalizing n with
  | nil => intro a ha; simp [syncActions] at ha
  | cons e rest ih =>
      obtain ⟨idx, st⟩ := e
      intro a ha
      unfold syncActions at ha
      cases hp : p st.device_type idx with
      | some cur =>
          rw [hp] at ha
          rcases List.mem_cons.1 ha with rfl | hmem
          · exact ⟨(idx, st), List.mem_cons_self _ _, hp, rfl, rfl⟩
          · obtain ⟨e', he', h₁, h₂, h₃⟩ := ih (n + 1) a hmem
            exact ⟨e', List.mem_cons_of_mem _ he', h₁, h₂, h₃⟩
      | none =>
          rw [hp] at ha
          obtain ⟨e', he', h₁, h₂, h₃⟩ := ih n a ha
          exact ⟨e', List.mem_cons_of_mem _ he', h₁, h₂, h₃⟩

lemma syncActions_complete (p : StreamFactory)
    (l : List (DeviceIndex × Stream)) (n : Nat) :
    ∀ e ∈ l, ∀ cur, p e.2.device_type e.1 = some cur →
      ∃ a ∈ syncActions p l n, a.recordedOn = cur ∧
        a.blockedStream = e.2 ∧ a.eventDeviceType = e.2.device_type := by
  induction l generalizing n with
  | nil => intro e he; simp at he
  | cons hd rest ih =>
      obtain ⟨idx, st⟩ := hd
      intro e he cur hcur
      unfold syncActions
      rcases List.mem_cons.1 he with rfl | hmem
      · rw [show p st.device_type idx = some cur from hcur]
        exact ⟨⟨n, st.device_type, cur, st⟩, List.mem_cons_self _ _,
          rfl, rfl, rfl⟩
      · cases hp : p st.device_type idx with
        | some c =>
            obtain ⟨a, ha, h₁, h₂, h₃⟩ := ih (n + 1) e hmem cur hcur
            exact ⟨a, List.mem_cons_of_mem _ ha, h₁, h₂, h₃⟩
        | none => exact ih n e hmem cur hcur

lemma syncActions_eventId_ge (p : StreamFactory)
    (l : List (DeviceIndex × Stream)) (n : Nat) :
    ∀ a ∈ syncActions p l n, n ≤ a.eventId := by
  induction l generalizing n with
  | nil => intro a ha; simp [syncActions] at ha
  | cons hd rest ih =>
      obtain ⟨idx, st⟩ := hd
      intro a ha
      unfold syncActions at ha
      cases hp : p st.device_type idx with
      | some cur =>
          rw [hp] at ha
          rcases List.mem_cons.1 ha with rfl | hmem
          · exact Nat.le_refl n
          · exact Nat.le_of_succ_le (ih (n + 1) a hmem)
      | none =>
          rw [hp] at ha
          exact ih n a ha

/-- The events issued by the second loop are pairwise fresh: their
creation-order numbers strictly increase along the list. -/
lemma syncActions_pairwise (p : StreamFactory)
    (l : List (DeviceIndex × Stream)) (n : Nat) :
    (syncActions p l n).Pairwise (fun a b => a.eventId < b.eventId) := by
  induction l generalizing n with
  | nil => exact List.Pairwise.nil
  | cons hd rest ih =>
      obtain ⟨idx, st⟩ := hd
      unfold syncActions
      cases hp : p st.device_type idx with
      | some cur =>
          refine List.Pairwise.cons ?_ (ih (n + 1))
          intro b hb
          exact Nat.lt_of_lt_of_le (Nat.lt_succ_self n)
            (syncActions_eventId_ge p rest (n + 1) b hb)
      | none => exact ih n

/-- C10: a successful `waitForCurrentStreams` synchronizes every device
reserved in the context so far, not only the devices of the tensors
passed in the current call: after reserving a stream for each given
tensor's device, it iterates over all cached streams — the previously
cached entries are all retained — and for each one whose current-stream
provider returns an ambient stream it records a fresh event (a distinct
creation number) on that ambient stream and makes the reserved stream
block on it; entries whose provider returns no stream contribute no
synchronization action. -/
theorem waitForCurrentStreams_syncs_all_reserved
    (ctx : LazyStreamContext) (tensors : List TensorDevice)
    (ctx' : LazyStreamContext) (actions : List SyncAction)
    (h : waitForCurrentStreams ctx tensors = .ok (ctx', actions)) :
    (∀ e ∈ ctx.streams_, e ∈ ctx'.streams_) ∧
    (∀ td ∈ tensors, ∃ s,
      ctx'.streams_.lookup td.device_index = some s) ∧
    ctx'.currentStreamProvider_ = ctx.currentStreamProvider_ ∧
    (∀ e ∈ ctx'.streams_, ∀ cur,
      ctx'.currentStreamProvider_ e.2.device_type e.1 = some cur →
      ∃ a ∈ actions, a.recordedOn = cur ∧ a.blockedStream = e.2 ∧
        a.eventDeviceType = e.2.device_type) ∧
    (∀ a ∈ actions, ∃ e ∈ ctx'.streams_,
      ctx'.currentStreamProvider_ e.2.device_type e.1 =
        some a.recordedOn ∧
      a.blockedStream = e.2 ∧ a.eventDeviceType = e.2.device_type) ∧
    actions.Pairwise (fun a b => a.eventId < b.eventId) := by
  unfold waitForCurrentStreams at h
  cases hr : reserveAll ctx tensors with
  | error e =>
      simp only [hr] at h
      exact Except.noConfusion h
  | ok ctx₁ =>
      simp only [hr, Except.ok.injEq, Prod.mk.injEq] at h
      obtain ⟨rfl, rfl⟩ := h
      obtain ⟨-, hp, hmem, hlk, hres⟩ := reserveAll_ok_inv hr
      refine ⟨hmem, hres, hp, ?_, ?_, syncActions_pairwise _ _ 0⟩
      · intro e he cur hcur
        exact syncActions_complete _ _ 0 e he cur hcur
      · intro a ha
        exact syncActions_sound _ _ 0 a ha

/-- Witness for C10: a context that already reserved device index 1
receives a call for a tensor on device index 0; both indices — the old
one included — get a record-and-block edge against their ambient
streams, with distinct event numbers. -/
theorem waitForCurrentStreams_syncs_all_reserved_witness :
    (∀ e ∈ [((1 : Int), (⟨1, 1, 11⟩ : Stream))],
      e ∈ [((1 : Int), (⟨1, 1, 11⟩ : Stream)),
           ((0 : Int), (⟨1, 0, 99⟩ : Stream))]) ∧
    (∀ td ∈ [(⟨1, 0⟩ : TensorDevice)], ∃ s,
      ([((1 : Int), (⟨1, 1, 11⟩ : Stream)),
        ((0 : Int), (⟨1, 0, 99⟩ : Stream))]).lookup td.device_index =
        some s) ∧
    (fun (t : DeviceType) (i : DeviceIndex) =>
      some (⟨t, i, 7⟩ : Stream)) =
      (fun (t : DeviceType) (i : DeviceIndex) => some ⟨t, i, 7⟩) ∧
    (∀ e ∈ [((1 : Int), (⟨1, 1, 11⟩ : Stream)),
            ((0 : Int), (⟨1, 0, 99⟩ : Stream))], ∀ cur,
      some (⟨e.2.device_type, e.1, 7⟩ : Stream) = some cur →
      ∃ a ∈ [(⟨0, 1, ⟨1, 1, 7⟩, ⟨1, 1, 11⟩⟩ : SyncAction),
             ⟨1, 1, ⟨1, 0, 7⟩, ⟨1, 0, 99⟩⟩],
        a.recordedOn = cur ∧ a.blockedStream = e.2 ∧
        a.eventDeviceType = e.2.device_type) ∧
    (∀ a ∈ [(⟨0, 1, ⟨1, 1, 7⟩, ⟨1, 1, 11⟩⟩ : SyncAction),
            ⟨1, 1, ⟨1, 0, 7⟩, ⟨1, 0, 99⟩⟩],
      ∃ e ∈ [((1 : Int), (⟨1, 1, 11⟩ : Stream)),
             ((0 : Int), (⟨1, 0, 99⟩ : Stream))],
        some (⟨e.2.device_type, e.1, 7⟩ : Stream) = some a.recordedOn ∧
        a.blockedStream = e.2 ∧ a.eventDeviceType = e.2.device_type) ∧
    ([(⟨0, 1, ⟨1, 1, 7⟩, ⟨1, 1, 11⟩⟩ : SyncAction),
      ⟨1, 1, ⟨1, 0, 7⟩, ⟨1, 0, 99⟩⟩]).Pairwise
      (fun a b => a.eventId < b.eventId) :=
  waitForCurrentStreams_syncs_all_reserved
    ⟨[((1 : Int), ⟨1, 1, 11⟩)], fun t i => some ⟨t, i, 99⟩,
      fun t i => some ⟨t, i, 7⟩⟩
    [⟨1, 0⟩]
    ⟨[((1 : Int), ⟨1, 1, 11⟩), ((0 : Int), ⟨1, 0, 99⟩)],
      fun t i => some ⟨t, i, 99⟩, fun t i => some ⟨t, i, 7⟩⟩
    [⟨0, 1, ⟨1, 1, 7⟩, ⟨1, 1, 11⟩⟩, ⟨1, 1, ⟨1, 0, 7⟩, ⟨1, 0, 99⟩⟩]
    rfl

/-!  Message routing (`deserializeRequest` / `deserializeResponse`).

Modelled from the spec: the bodies live outside the excerpt.  The
message-type tag space is the spec's closed enumeration (numeric codes);
command objects are external, so a reconstructed command is modelled as
a tagged record carrying the decoded payload and the received tensors,
each tensor flagged with whether a `recvBackward` hook was attached. -/

/-- Message-type tag codes (spec §6 tag space). -/
def SCRIPT_CALL : Nat := 0

/-- Tag of a script response. -/
def SCRIPT_RET : Nat := 1

/-- Tag of a remote-reference operation. -/
def REMOTE_REF_OP : Nat := 2

/-- Tag of a request wrapped for forward autograd. -/
def FORWARD_AUTOGRAD_REQ : Nat := 3

/-- Tag of a response wrapped for forward autograd. -/
def FORWARD_AUTOGRAD_RESP : Nat := 4

/-- Tag of an error message. -/
def RPC_ERROR_TAG : Nat := 5

/-- The closed set of supported message-type tags. -/
def knownMessageTypes : List Nat :=
  [SCRIPT_CALL, SCRIPT_RET, REMOTE_REF_OP, FORWARD_AUTOGRAD_REQ,
   FORWARD_AUTOGRAD_RESP, RPC_ERROR_TAG]

/-- An RPC `Message`: type tag, opaque byte payload, tensor list. -/
structure Message where
  messageType : Nat
  payload : List Nat
  tensors : List Tensor
  deriving DecidableEq, Repr

/-- A received tensor, flagged with whether a `recvBackward` hook was
attached during deserialization. -/
structure RecvTensor where
  tensor : Tensor
  recvBackwardAttached : Bool
  deriving DecidableEq, Repr

/-- The reconstructed command object (`RpcCommandBase`), modelled as a
tagged record since the command hierarchy is an external collaborator. -/
structure RpcCommand where
  commandType : Nat
  payload : List Nat
  tensors : List RecvTensor
  deriving DecidableEq, Repr

/-- Errors of the routing layer. -/
inductive RpcError where
  | unsupportedMessageType (tag : Nat)
  | format (e : FormatError)
  deriving DecidableEq, Repr

/-- Modelled from the spec: tag-indexed dispatch shared by request and
response deserialization — one decode entry per known variant; unknown
or unsupported tags fail with `UnsupportedMessageType` (never a crash,
never a silent default: the function is total and returns an explicit
error). -/
def dispatchCommand (msgType : Nat) (payload : List Nat)
    (tensors : List RecvTensor) : Except RpcError RpcCommand :=
  if msgType ∈ knownMessageTypes then
    .ok ⟨msgType, payload, tensors⟩
  else
    .error (.unsupportedMessageType msgType)

/-- Modelled from the spec: `deserializeRequest` dispatches on the
message-type tag to reconstruct the command; no backward hooks are
attached on the request path. -/
def deserializeRequest (request : Message) : Except RpcError RpcCommand :=
  dispatchCommand request.messageType request.payload
    (request.tensors.map fun t => ⟨t, false⟩)

/-- Modelled from the spec: `deserializeResponse` dispatches on the tag;
for a `FORWARD_AUTOGRAD_RESP` it uses the payload nester to split off
the wrapped segment (which carries the wrapped message type as a
fixed-width field), reconstructs the wrapped message's own response with
`recvBackward` hooks attached to the received tensors, and reports the
unwrapped message type in the second component (the C++ output
parameter `wrappedMsgType`); for every other tag it dispatches like
`deserializeRequest` and reports the original tag. -/
def deserializeResponse (response : Message) :
    Except RpcError (RpcCommand × Nat) :=
  if response.messageType = FORWARD_AUTOGRAD_RESP then
    match readWrappedPayload response.payload with
    | .error e => .error (.format e)
    | .ok (origPayload, wrappedBytes) =>
        match decodeLen64 wrappedBytes with
        | none => .error (.format .badMetadata)
        | some wrappedMsgType =>
            match dispatchCommand wrappedMsgType origPayload
                (response.tensors.map fun t => ⟨t, true⟩) with
            | .error e => .error e
            | .ok cmd => .ok (cmd, wrappedMsgType)
  else
    match dispatchCommand response.messageType response.payload
        (response.tensors.map fun t => ⟨t, false⟩) with
    | .error e => .error e
    | .ok cmd => .ok (cmd, response.messageType)

/-- C8: for every message whose message-type tag is outside the
supported set, `deserializeRequest` fails with an
`UnsupportedMessageType` error naming the tag — it is a total function,
so there is no crash, and the error is explicit, never a silent default
command object. -/
theorem deserializeRequest_unknown_tag (m : Message)
    (h : m.messageType ∉ knownMessageTypes) :
    deserializeRequest m =
      .error (.unsupportedMessageType m.messageType) := by
  unfold deserializeRequest dispatchCommand
  rw [if_neg h]

/-- Witness for C8: tag 99 is rejected. -/
theorem deserializeRequest_unknown_tag_witness :
    deserializeRequest ⟨99, [], []⟩ =
      .error (.unsupportedMessageType 99) :=
  deserializeRequest_unknown_tag ⟨99, [], []⟩ (by decide)

/-- C7: `deserializeResponse` on a forward-autograd-wrapped response
unwraps the inner payload via the payload nester, reconstructs the
wrapped message's own response type with backward-propagation hooks
attached to the received tensors, and writes the unwrapped message type
into the output slot; on every non-wrapped tag it dispatches exactly
like `deserializeRequest` (same command, hooks untouched) and leaves
the output slot equal to the original tag. -/
theorem deserializeResponse_dispatch (m : Message) :
    (∀ (inner : List Nat) (wrappedType : Nat),
      m.messageType = FORWARD_AUTOGRAD_RESP →
      m.payload = writeWrappedPayload inner (encodeLen64 wrappedType) →
      wrappedType < 2 ^ 64 →
      wrappedType ∈ knownMessageTypes →
      deserializeResponse m =
        .ok (⟨wrappedType, inner, m.tensors.map fun t => ⟨t, true⟩⟩,
          wrappedType)) ∧
    (m.messageType ≠ FORWARD_AUTOGRAD_RESP →
      deserializeResponse m =
        (deserializeRequest m).map fun cmd => (cmd, m.messageType)) := by
  constructor
  · intro inner wrappedType htag hpayload hlt hknown
    unfold deserializeResponse
    rw [if_pos htag, hpayload,
      readWrapped_writeWrapped inner (encodeLen64 wrappedType)
        (by rw [encodeLen64_length]; omega)]
    simp only []
    rw [decodeLen64_encodeLen64 wrappedType hlt]
    simp only []
    unfold dispatchCommand
    rw [if_pos hknown]
  · intro htag
    unfold deserializeResponse deserializeRequest
    rw [if_neg htag]
    cases hd : dispatchCommand m.messageType m.payload
        (m.tensors.map fun t => ⟨t, false⟩) with
    | error e => rfl
    | ok cmd => rfl

/-- Witness for C7: a response tagged `FORWARD_AUTOGRAD_RESP` wrapping a
script response with payload `[42]` decodes to the unwrapped script
response with a hooked tensor and output slot `SCRIPT_RET`; a plain
script response decodes like a request with the slot left at its tag. -/
theorem deserializeResponse_dispatch_witness :
    deserializeResponse
        ⟨FORWARD_AUTOGRAD_RESP,
          writeWrappedPayload [42] (encodeLen64 SCRIPT_RET),
          [⟨[1], 0, 1, [9], 0⟩]⟩ =
      .ok (⟨SCRIPT_RET, [42], [⟨⟨[1], 0, 1, [9], 0⟩, true⟩]⟩,
        SCRIPT_RET) ∧
    deserializeResponse ⟨SCRIPT_RET, [7], []⟩ =
      (deserializeRequest ⟨SCRIPT_RET, [7], []⟩).map
        fun cmd => (cmd, SCRIPT_RET) :=
  ⟨(deserializeResponse_dispatch
      ⟨FORWARD_AUTOGRAD_RESP,
        writeWrappedPayload [42] (encodeLen64 SCRIPT_RET),
        [⟨[1], 0, 1, [9], 0⟩]⟩).1 [42] SCRIPT_RET rfl rfl
      (by decide) (by decide),
   (deserializeResponse_dispatch ⟨SCRIPT_RET, [7], []⟩).2 (by decide)⟩

end RpcUtils
